import Mathlib

/-!
Verification of the MCP client and tool-invocation layer of the ai-agent
repository (TypeScript).  The definitions below are a shallow embedding of
the source: JavaScript runtime values are modelled by the inductive JVal,
JS objects by insertion-ordered association lists, JS numbers by Rat
(every numeric value exercised here is exactly representable), and the
asynchronous request/reply machinery of MCPClient by an explicit state
type with a step relation over completion events.
-/

/-! ## Association lists modelling JS objects / Maps (insertion ordered) -/

/-- Property read obj[k]: first (only) binding for k. -/
def lookupKey {α : Type} : List (String × α) → String → Option α
  | [], _ => none
  | (k2, v) :: rest, k => if k2 = k then some v else lookupKey rest k

/-- Property write obj[k] = v: replace in place if present, else append
(JS objects keep insertion order). -/
def setKey {α : Type} : List (String × α) → String → α → List (String × α)
  | [], k, v => [(k, v)]
  | (k2, v2) :: rest, k, v =>
    if k2 = k then (k, v) :: rest else (k2, v2) :: setKey rest k v

/-- The JS test (k in obj). -/
def hasKey {α : Type} (l : List (String × α)) (k : String) : Bool :=
  (lookupKey l k).isSome

/-! ## JS string helpers -/

/-- Chars cs start with pat. -/
def charsStartWith : List Char → List Char → Bool
  | _, [] => true
  | [], _ :: _ => false
  | c :: cs, p :: ps => c = p && charsStartWith cs ps

/-- pat occurs somewhere in cs (JS String.includes). -/
def charsHasSub (pat : List Char) : List Char → Bool
  | [] => charsStartWith [] pat
  | c :: rest => charsStartWith (c :: rest) pat || charsHasSub pat rest

/-- JS s.includes(pat). -/
def strHasSub (s pat : String) : Bool := charsHasSub pat.data s.data

/-- Digit run value, base 10. -/
def digitsVal (cs : List Char) : Nat :=
  cs.foldl (fun acc c => acc * 10 + (c.toNat - 48)) 0

/-- JS parseFloat(s): skip leading whitespace, optional sign, then a
decimal literal prefix (digits, optional fraction); none models NaN.
Exponent notation of the JS builtin is not modelled (no verified claim
exercises it). -/
def parseFloatOpt (s : String) : Option Rat :=
  let cs0 := s.data.dropWhile Char.isWhitespace
  let (neg, cs) :=
    match cs0 with
    | '-' :: rest => (true, rest)
    | '+' :: rest => (false, rest)
    | _ => (false, cs0)
  let intPart := cs.takeWhile Char.isDigit
  let rest1 := cs.dropWhile Char.isDigit
  let fracPart :=
    match rest1 with
    | '.' :: r2 => r2.takeWhile Char.isDigit
    | _ => []
  if intPart.isEmpty && fracPart.isEmpty then none
  else
    let k := fracPart.length
    let mag : Rat := mkRat ((digitsVal intPart * 10 ^ k + digitsVal fracPart : Nat) : Int) (10 ^ k)
    some (if neg then -mag else mag)

/-- JS parseInt(s): skip leading whitespace, optional sign, leading digit
run; none models NaN.  The automatic hex-radix detection of the JS
builtin is not modelled (no verified claim exercises it). -/
def parseIntOpt (s : String) : Option Int :=
  let cs0 := s.data.dropWhile Char.isWhitespace
  let (neg, cs) :=
    match cs0 with
    | '-' :: rest => (true, rest)
    | '+' :: rest => (false, rest)
    | _ => (false, cs0)
  let ds := cs.takeWhile Char.isDigit
  if ds.isEmpty then none
  else some (if neg then -(digitsVal ds : Int) else (digitsVal ds : Int))

/-- JS Number.prototype.toString for the numbers arising here: exact for
integral values; non-integral values (never produced by any claim input)
are rendered as num/den, which is not JS-exact. -/
def ratToJsString (q : Rat) : String :=
  if q.den = 1 then toString q.num
  else toString q.num ++ "/" ++ toString q.den

/-- JS String.prototype.trim: strip whitespace at both ends. -/
def jsTrim (s : String) : String :=
  String.mk (((s.data.dropWhile Char.isWhitespace).reverse.dropWhile Char.isWhitespace).reverse)

/-- JS String.prototype.toLowerCase (ASCII range, which is all the
source compares). -/
def jsToLower (s : String) : String :=
  String.mk (s.data.map Char.toLower)

/-- input.trim().split on runs of whitespace; JS split of the empty
string yields a singleton empty string. -/
def jsTrimSplitWs (s : String) : List String :=
  let t := jsTrim s
  if t = "" then [""]
  else
    let step := fun (c : Char) (acc : List Char × List (List Char)) =>
      if c.isWhitespace then
        (if acc.1.isEmpty then acc else ([], acc.1 :: acc.2))
      else (c :: acc.1, acc.2)
    let r := t.data.foldr step ([], [])
    (if r.1.isEmpty then r.2 else r.1 :: r.2).map fun cs => String.mk cs

/-- Full-string test of the regex digits ( dot digits )? used on words. -/
def isNumericToken (w : String) : Bool :=
  let cs := w.data
  let ds := cs.takeWhile Char.isDigit
  let rest := cs.dropWhile Char.isDigit
  !ds.isEmpty &&
    (rest.isEmpty ||
      match rest with
      | '.' :: fs => !fs.isEmpty && fs.all Char.isDigit
      | _ => false)

/-- Global scan of the regex digits ( dot digits )? over the raw input:
left-to-right, maximal, non-overlapping matches (input.match with the g
flag).  Fuel bounds the recursion; the initial fuel always suffices. -/
def scanNumsAux : Nat → List Char → List String
  | 0, _ => []
  | _ + 1, [] => []
  | fuel + 1, c :: rest =>
    if c.isDigit then
      let ds := (c :: rest).takeWhile Char.isDigit
      let r1 := (c :: rest).dropWhile Char.isDigit
      match r1 with
      | '.' :: d2 :: r2 =>
        if d2.isDigit then
          let fs := (d2 :: r2).takeWhile Char.isDigit
          let r3 := (d2 :: r2).dropWhile Char.isDigit
          String.mk (ds ++ '.' :: fs) :: scanNumsAux fuel r3
        else String.mk ds :: scanNumsAux fuel r1
      | _ => String.mk ds :: scanNumsAux fuel r1
    else scanNumsAux fuel rest

/-- All numeric substrings of s, in order of appearance (empty list
models the null return of String.match). -/
def scanNums (s : String) : List String := scanNumsAux (s.length + 1) s.data

/-! ## JS runtime values -/

/-- JS values as handled by the tool layer.  null models both null and
undefined (the source treats them identically at every modelled site). -/
inductive JVal where
  | str (s : String)
  | num (q : Rat)
  | bool (b : Bool)
  | arr (elems : List JVal)
  | obj (fields : List (String × JVal))
  | null
deriving Repr, BEq

/-- value is null (or undefined). -/
def JVal.isNull : JVal → Bool
  | .null => true
  | _ => false

/-- JS truthiness. -/
def jsTruthy : JVal → Bool
  | .str s => s ≠ ""
  | .num q => q ≠ 0
  | .bool b => b
  | .arr _ => true
  | .obj _ => true
  | .null => false

/-- JS value.toString() at the sites the source calls it (never on
null/undefined: every call site is guarded). -/
def jsToString : JVal → String
  | .str s => s
  | .num q => ratToJsString q
  | .bool b => if b then "true" else "false"
  | .arr l => String.intercalate "," (l.map fun v =>
      match v with
      | .str s => s
      | .num q => ratToJsString q
      | .bool b => if b then "true" else "false"
      | .null => ""
      | _ => "")
  | .obj _ => "[object Object]"
  | .null => "null"

/-! ## Tool parameter schemas (MCPTool.inputSchema) -/

/-- One declared parameter: its primitive type tag and optional enum of
allowed string values (the only schema fields the source reads). -/
structure PropSchema where
  type : String
  enum : Option (List String) := none
deriving Repr, DecidableEq

/-- inputSchema of an MCPTool: ordered property map plus required list. -/
structure ToolInputSchema where
  properties : List (String × PropSchema)
  required : List String := []
deriving Repr, DecidableEq

/-- MCPToolWrapper.convertValueToSchemaType, translated clause by
clause.  The JS null/undefined guard is the JVal.null test. -/
def convertValueToSchemaType (value : JVal) (propSchema : PropSchema) : JVal :=
  if value.isNull then value
  else
    match propSchema.type with
    | "number" =>
      match parseFloatOpt (jsToString value) with
      | some numValue => .num numValue
      | none => .num 0
    | "integer" =>
      match parseIntOpt (jsToString value) with
      | some intValue => .num (mkRat intValue 1)
      | none => .num 0
    | "boolean" =>
      match value with
      | .bool b => .bool b
      | .str s => .bool (jsToLower s = "true" || s = "1")
      | _ => .bool (jsTruthy value)
    | "string" => .str (jsToString value)
    | "array" =>
      match value with
      | .arr _ => value
      | _ => .arr [value]
    | "object" =>
      match value with
      | .obj _ => value
      | _ => .obj [("value", value)]
    | _ => value

/-- MCPToolWrapper.getPropertyPriority: fixed name-pattern ranking. -/
def getPropertyPriority (propName : String) (propSchema : PropSchema) : Nat :=
  let name := jsToLower propName
  if strHasSub name "query" || strHasSub name "search" then 10
  else if strHasSub name "name" || strHasSub name "title" then 9
  else if strHasSub name "id" then 8
  else if strHasSub name "category" || strHasSub name "type" then 7
  else if strHasSub name "text" || strHasSub name "content" then 6
  else if strHasSub name "description" || strHasSub name "summary" then 5
  else if propSchema.enum.isSome then 4
  else 1

/-- MCPToolWrapper.getDefaultValueForSchema.  An enum that is the empty
array indexes out of bounds in JS (undefined), modelled as null. -/
def getDefaultValueForSchema (propSchema : PropSchema) : JVal :=
  match propSchema.type with
  | "number" => .num 0
  | "integer" => .num 0
  | "boolean" => .bool false
  | "string" =>
    match propSchema.enum with
    | some (v :: _) => .str v
    | some [] => .null
    | none => .str ""
  | "array" => .arr []
  | "object" => .obj []
  | _ => .null

/-! ## MCPToolWrapper.mapInputToSchema
The free-text branch mutates a result object and a word list through
three passes (enum matching with break, priority-driven shift with
continue, leftover join); each loop is translated as a recursion whose
state is the (result, words) pair. -/

/-- numericProps.forEach((prop, index) => ...): assign the index-th
numeric substring to the index-th numeric property. -/
def numericFillLoop (properties : List (String × PropSchema)) (ms : List String) :
    Nat → List String → List (String × JVal) → List (String × JVal)
  | _, [], result => result
  | index, prop :: rest, result =>
    let result2 :=
      if index < ms.length then
        match lookupKey properties prop with
        | some propSchema =>
          setKey result prop (convertValueToSchemaType (.str (ms.getD index "")) propSchema)
        | none => result
      else result
    numericFillLoop properties ms (index + 1) rest result2

/-- First string-prop pass: find a word matching some enum value
(case-insensitive or exact), assign it, remove the word, break. -/
def enumMatchLoop (properties : List (String × PropSchema)) :
    List String → List (String × JVal) → List String →
    List (String × JVal) × List String
  | [], result, words => (result, words)
  | prop :: rest, result, words =>
    match lookupKey properties prop with
    | some propSchema =>
      match propSchema.enum with
      | some evs =>
        match words.find? (fun w => evs.contains (jsToLower w) || evs.contains w) with
        | some matchingEnum =>
          if matchingEnum ≠ "" ∧ hasKey result prop = false then
            (setKey result prop (.str matchingEnum), words.eraseP (fun w => w = matchingEnum))
          else enumMatchLoop properties rest result words
        | none => enumMatchLoop properties rest result words
      | none => enumMatchLoop properties rest result words
    | none => enumMatchLoop properties rest result words

/-- Second string-prop pass: break when out of words, skip filled props,
and (the priority test never fails, since priorities are at least 1)
shift the next word into the property. -/
def priorityAssignLoop (properties : List (String × PropSchema)) :
    List String → List (String × JVal) → List String →
    List (String × JVal) × List String
  | [], result, words => (result, words)
  | prop :: rest, result, words =>
    if words.length = 0 then (result, words)
    else if hasKey result prop then priorityAssignLoop properties rest result words
    else
      let propSchema := (lookupKey properties prop).getD { type := "" }
      let priority := getPropertyPriority prop propSchema
      if words.length = 1 ∨ priority > 0 then
        match words with
        | w :: wrest => priorityAssignLoop properties rest (setKey result prop (.str w)) wrest
        | [] => priorityAssignLoop properties rest result words
      else priorityAssignLoop properties rest result words

/-- Fill still-missing required properties with getDefaultValueForSchema
(the lookup of an undeclared required property would throw in JS and is
modelled as null; unreachable for well-formed schemas). -/
def fillRequiredDefaults (properties : List (String × PropSchema)) :
    List String → List (String × JVal) → List (String × JVal)
  | [], result => result
  | reqProp :: rest, result =>
    let result2 :=
      if hasKey result reqProp then result
      else
        setKey result reqProp
          (match lookupKey properties reqProp with
           | some propSchema => getDefaultValueForSchema propSchema
           | none => .null)
    fillRequiredDefaults properties rest result2

/-- Final fallback of mapInputToSchema: convert the raw input into the
first required property, else into the first declared property. -/
def mapInputFallback (properties : List (String × PropSchema)) (required : List String)
    (propertyNames : List String) (input : JVal) : JVal :=
  let result : List (String × JVal) :=
    match required with
    | [] => []
    | propName :: _ =>
      [(propName,
        match lookupKey properties propName with
        | some propSchema => convertValueToSchemaType input propSchema
        | none => input)]
  if result.isEmpty ∧ propertyNames.length > 0 then
    match propertyNames with
    | propName :: _ =>
      .obj [(propName,
        match lookupKey properties propName with
        | some propSchema => convertValueToSchemaType input propSchema
        | none => input)]
    | [] => .obj result
  else .obj result

/-- The free-text branch of mapInputToSchema (input is a string and the
schema declares several properties). -/
def mapStringInput (properties : List (String × PropSchema)) (required : List String)
    (propertyNames : List String) (s : String) : JVal :=
  let words := jsTrimSplitWs s
  let numberMatches := scanNums s
  let numericProps := propertyNames.filter fun p =>
    match lookupKey properties p with
    | some ps => ps.type = "number" || ps.type = "integer"
    | none => false
  let stringProps := propertyNames.filter fun p =>
    match lookupKey properties p with
    | some ps => ps.type = "string"
    | none => false
  let result0 : List (String × JVal) := []
  let result1 :=
    if !numberMatches.isEmpty && numericProps.length > 0 then
      numericFillLoop properties numberMatches 0 numericProps result0
    else result0
  let result2 :=
    if stringProps.length > 0 then
      let nonNumericWords := words.filter fun w => !isNumericToken w
      if nonNumericWords.length > 0 then
        let (r2, ws2) := enumMatchLoop properties stringProps result1 nonNumericWords
        let (r3, ws3) := priorityAssignLoop properties stringProps r2 ws2
        if ws3.length > 0 then
          let remainingStringProps := stringProps.filter fun p => hasKey r3 p = false
          match remainingStringProps with
          | bestProp :: _ => setKey r3 bestProp (.str (String.intercalate " " ws3))
          | [] => r3
        else r3
      else result1
    else result1
  if result2.length > 0 then
    .obj (fillRequiredDefaults properties required result2)
  else if stringProps.length > 0 then
    let bestMatch :=
      (stringProps.find? fun p =>
        strHasSub (jsToLower p) "query" || strHasSub (jsToLower p) "name" ||
        strHasSub (jsToLower p) "id" || strHasSub (jsToLower p) "search" ||
        strHasSub (jsToLower p) "text").getD (stringProps.getD 0 "")
    .obj [(bestMatch, .str s)]
  else mapInputFallback properties required propertyNames (.str s)

/-- MCPToolWrapper.mapInputToSchema.  The early returns mirror the
source: zero-property schemas, object (or array) inputs passed through,
single-property direct mapping, free-text heuristics, final fallback. -/
def mapInputToSchema (schema : ToolInputSchema) (input : JVal) : JVal :=
  let properties := schema.properties
  let required := schema.required
  let propertyNames := properties.map Prod.fst
  if propertyNames.length = 0 then
    match input with
    | .obj _ => input
    | .arr _ => input
    | .null => input
    | _ => .obj [("input", input)]
  else
    match input with
    | .obj _ => input
    | .arr _ => input
    | _ =>
      if propertyNames.length = 1 then
        match propertyNames with
        | propName :: _ =>
          let propSchema := (lookupKey properties propName).getD { type := "" }
          .obj [(propName, convertValueToSchemaType input propSchema)]
        | [] => .obj []
      else
        match input with
        | .str s => mapStringInput properties required propertyNames s
        | _ => mapInputFallback properties required propertyNames input

/-! ## MCPToolWrapper.validateAndCleanArgs
The source iterates Object.entries(args), coercing declared fields and
silently dropping undeclared ones and unparseable numerics, then walks
the required list, logging a warning and synthesizing a plain default
for each missing required field.  The embedding returns the cleaned
arguments together with the list of warnings logged. -/

/-- The coercion applied by one switch dispatch of the cleaning loop:
some value to assign, or none when the field is dropped (null/undefined
value, or an unparseable numeric). -/
def cleanValue (propSchema : PropSchema) (value : JVal) : Option JVal :=
  if propSchema.type = "number" ∨ propSchema.type = "integer" then
    if value.isNull then none
    else
      match parseFloatOpt (jsToString value) with
      | some numValue =>
        some (.num (if propSchema.type = "integer" then mkRat numValue.floor 1 else numValue))
      | none => none
  else if propSchema.type = "string" then
    if value.isNull then none else some (.str (jsToString value))
  else if propSchema.type = "boolean" then
    if value.isNull then none else some (.bool (jsTruthy value))
  else some value

/-- One iteration of the Object.entries(args) cleaning loop: undeclared
keys are dropped, declared keys are assigned their coerced value when
the coercion produces one. -/
def cleanStep (properties : List (String × PropSchema))
    (acc : List (String × JVal)) (key : String) (value : JVal) : List (String × JVal) :=
  match lookupKey properties key with
  | some propSchema =>
    match cleanValue propSchema value with
    | some v2 => setKey acc key v2
    | none => acc
  | none => acc

/-- The full cleaning loop over the candidate argument entries. -/
def cleanArgsLoop (properties : List (String × PropSchema)) :
    List (String × JVal) → List (String × JVal) → List (String × JVal)
  | acc, [] => acc
  | acc, (key, value) :: rest => cleanArgsLoop properties (cleanStep properties acc key value) rest

/-- The warning text logged for a missing required parameter (quoting of
the source template omitted). -/
def missingParamWarning (requiredProp toolName : String) : String :=
  "Missing required parameter " ++ requiredProp ++ " for tool " ++ toolName

/-- The default the required-fill pass writes for one declared type:
0 for number/integer, the empty string for string, false for boolean;
no branch of the source if-chain matches any other type (and an
undeclared required property, whose schema lookup is undefined, is
guarded by the optional-chaining test), so those stay absent. -/
def requiredFillValue (ps : PropSchema) : Option JVal :=
  if ps.type = "number" ∨ ps.type = "integer" then some (.num 0)
  else if ps.type = "string" then some (.str "")
  else if ps.type = "boolean" then some (.bool false)
  else none

/-- The argument-set update of one required-fill iteration. -/
def requiredFillAcc (properties : List (String × PropSchema))
    (acc : List (String × JVal)) (requiredProp : String) : List (String × JVal) :=
  match lookupKey properties requiredProp with
  | some propSchema =>
    match requiredFillValue propSchema with
    | some d => setKey acc requiredProp d
    | none => acc
  | none => acc

/-- The loop over required properties: for each still-missing one, log a
warning and apply the type default (if its type has one). -/
def requiredFillLoop (properties : List (String × PropSchema)) (toolName : String) :
    List String → List (String × JVal) × List String → List (String × JVal) × List String
  | [], st => st
  | requiredProp :: rest, (acc, warns) =>
    if hasKey acc requiredProp then requiredFillLoop properties toolName rest (acc, warns)
    else
      requiredFillLoop properties toolName rest
        (requiredFillAcc properties acc requiredProp,
         warns ++ [missingParamWarning requiredProp toolName])

/-- validateAndCleanArgs together with the warnings it logs. -/
def validateAndCleanArgsW (schema : ToolInputSchema) (toolName : String)
    (args : List (String × JVal)) : List (String × JVal) × List String :=
  requiredFillLoop schema.properties toolName schema.required
    (cleanArgsLoop schema.properties [] args, [])

/-- MCPToolWrapper.validateAndCleanArgs: the cleaned argument set. -/
def validateAndCleanArgs (schema : ToolInputSchema) (toolName : String)
    (args : List (String × JVal)) : List (String × JVal) :=
  (validateAndCleanArgsW schema toolName args).1

/-! ## MCPToolWrapper.executeInternal: argument preparation -/

/-- Object.entries as applied to the prepared argument value (an object
in every reachable path; arrays enumerate by index). -/
def objEntries : JVal → List (String × JVal)
  | .obj fields => fields
  | .arr elems => (elems.enum.map fun p => (toString p.1, p.2))
  | _ => []

/-- The argument-preparation phase of executeInternal: object inputs
pass through, other truthy inputs go through mapInputToSchema, falsy
inputs become the empty argument set; then validateAndCleanArgs.  The
phase is total: it cannot throw. -/
def prepareArgs (schema : ToolInputSchema) (toolName : String) (input : JVal) :
    List (String × JVal) × List String :=
  let mcpArguments : JVal :=
    match input with
    | .obj _ => input
    | .arr _ => input
    | _ => if jsTruthy input then mapInputToSchema schema input else .obj []
  validateAndCleanArgsW schema toolName (objEntries mcpArguments)

/-! ## Tool results: formatToolResult and the executeInternal postlude -/

/-- One entry of MCPToolResult.content. -/
structure ContentItem where
  type : String
  text : Option String := none
  data : Option String := none
  url : Option String := none
  mimeType : Option String := none
deriving Repr, DecidableEq

/-- MCPToolResult: content list plus optional error flag. -/
structure MCPToolResult where
  content : List ContentItem
  isError : Option Bool := none
deriving Repr, DecidableEq

/-- JS string-or-default (u || d) for optional string fields. -/
def jsStrOrDefault (u : Option String) (d : String) : String :=
  match u with
  | some s => if s = "" then d else s
  | none => d

/-- JSON.stringify of one content item (fields in declaration order,
absent fields omitted, as JSON.stringify does). -/
def stringifyItem (item : ContentItem) : String :=
  let fields :=
    [("type", some item.type), ("text", item.text), ("data", item.data),
     ("url", item.url), ("mimeType", item.mimeType)]
  let present := fields.filterMap fun f =>
    match f.2 with
    | some v => some ("\x22" ++ f.1 ++ "\x22:\x22" ++ v ++ "\x22")
    | none => none
  "\x7b" ++ String.intercalate "," present ++ "\x7d"

/-- JSON.stringify of a content list. -/
def stringifyContent (content : List ContentItem) : String :=
  "[" ++ String.intercalate "," (content.map stringifyItem) ++ "]"

/-- Array.prototype.join with the given separator. -/
def joinSep (sep : String) : List String → String
  | [] => ""
  | [x] => x
  | x :: xs => x ++ sep ++ joinSep sep xs

/-- MCPToolWrapper.formatToolResult: newline-join the non-empty text
items; otherwise render bracketed placeholders for non-text items;
otherwise fall back to the JSON of the whole content list. -/
def formatToolResult (result : MCPToolResult) : String :=
  if result.content.isEmpty then "Tool executed successfully with no output"
  else
    let textContent :=
      joinSep "\n" ((result.content.filter fun item =>
        item.type = "text" && jsStrOrDefault item.text "" ≠ "").map fun item =>
          (item.text.getD ""))
    if textContent ≠ "" then textContent
    else
      let otherContent :=
        joinSep "\n" ((result.content.filter fun item => item.type ≠ "text").map fun item =>
          if item.type = "image" then "[Image: " ++ jsStrOrDefault item.url "data" ++ "]"
          else if item.type = "resource" then "[Resource: " ++ jsStrOrDefault item.url "unknown" ++ "]"
          else "[" ++ item.type ++ ": " ++ stringifyItem item ++ "]")
      if otherContent ≠ "" then otherContent else stringifyContent result.content

/-- The result-handling tail of executeInternal: an error-flagged result
throws; otherwise the formatted text is returned. -/
def processToolResult (result : MCPToolResult) : Except String String :=
  if result.isError = some true then
    .error ("Tool execution failed: " ++ stringifyContent result.content)
  else .ok (formatToolResult result)

/-! ## MCPClient: correlation engine state machine
Requests are correlated by string identifiers (uuidv4).  The client
state carries the pendingRequests map (as its ordered key list: the
values are the completion callbacks, whose effect is captured in the
settled ledger), the armed per-request timeout timers, and the promise
settlements that have occurred.  A JS promise settles at most once:
settlePromise ignores any second completion for the same identifier. -/

/-- MCPError of the protocol (code, message). -/
structure MCPError where
  code : Int
  message : String
deriving Repr, DecidableEq

/-- An inbound MCPMessage as far as the correlation engine reads it:
optional id, optional result payload, optional error envelope. -/
structure MCPMessage where
  id : Option String := none
  result : Option String := none
  error : Option MCPError := none
deriving Repr, DecidableEq

/-- How a pending request handle was completed. -/
inductive Completion where
  | success (response : MCPMessage)
  | protocolError (message : String)
  | timeoutError
  | sendError
deriving Repr, DecidableEq

/-- Membership in a list of identifiers (Map.has). -/
def hasId : List String → String → Bool
  | [], _ => false
  | x :: rest, i => if x = i then true else hasId rest i

/-- Map.delete / clearTimeout: drop an identifier. -/
def removeId : List String → String → List String
  | [], _ => []
  | x :: rest, i => if x = i then removeId rest i else x :: removeId rest i

/-- Map.set of a fresh callback entry (uuid identifiers are fresh, so a
same-key overwrite keeps a single entry). -/
def addId (l : List String) (i : String) : List String :=
  if hasId l i then l else l ++ [i]

/-- First settlement recorded for an identifier, if any. -/
def settledFor : List (String × Completion) → String → Option Completion
  | [], _ => none
  | (i, c) :: rest, j => if i = j then some c else settledFor rest j

/-- Number of settlements recorded for an identifier. -/
def settledCount : List (String × Completion) → String → Nat
  | [], _ => 0
  | (i, _) :: rest, j => (if i = j then 1 else 0) + settledCount rest j

/-- The promise for an identifier has settled. -/
def isSettled (l : List (String × Completion)) (i : String) : Bool :=
  (settledFor l i).isSome

/-- Settling a promise: a no-op when it has already settled (JS promises
resolve or reject at most once). -/
def settlePromise (l : List (String × Completion)) (i : String) (c : Completion) :
    List (String × Completion) :=
  if isSettled l i then l else l ++ [(i, c)]

/-- The MCPClient state read or written by the modelled operations. -/
structure ClientState where
  pending : List String := []
  settled : List (String × Completion) := []
  timeouts : List String := []
  isConnected : Bool := false
  initialized : Bool := false
  sessionId : Option String := none
deriving Repr, DecidableEq

/-- The callback registered by sendRequest: a reply with an error
envelope rejects with a protocol error, any other reply resolves. -/
def callbackCompletion (response : MCPMessage) : Completion :=
  match response.error with
  | some e => .protocolError ("MCP Error: " ++ e.message)
  | none => .success response

/-- MCPClient.handleSSEMessage: a truthy id with a pending entry runs
and removes the callback; anything else is logged and dropped. -/
def handleSSEMessage (s : ClientState) (message : MCPMessage) : ClientState :=
  match message.id with
  | some i =>
    if i ≠ "" ∧ hasId s.pending i then
      { s with settled := settlePromise s.settled i (callbackCompletion message),
               pending := removeId s.pending i }
    else s
  | none => s

/-- The registration step of MCPClient.sendRequest: install the
completion callback and arm the 30-second timeout. -/
def sendRequestRegister (s : ClientState) (i : String) : ClientState :=
  { s with pending := addId s.pending i, timeouts := addId s.timeouts i }

/-- The timeout handler of sendRequest (fires only while armed): remove
the pending entry and reject with the timeout error. -/
def timeoutFire (s : ClientState) (i : String) : ClientState :=
  if hasId s.timeouts i then
    { s with timeouts := removeId s.timeouts i,
             pending := removeId s.pending i,
             settled := settlePromise s.settled i .timeoutError }
  else s

/-- The catch branch of sendRequest when the HTTP POST fails:
clearTimeout, delete the pending entry, reject with the send error. -/
def postErrorFire (s : ClientState) (i : String) : ClientState :=
  { s with timeouts := removeId s.timeouts i,
           pending := removeId s.pending i,
           settled := settlePromise s.settled i .sendError }

/-- MCPClient.disconnect: close the stream, clear the flags and the
sessionId, and clear the pendingRequests map.  The pending callbacks are
not invoked and the per-request timers are not cleared. -/
def disconnect (s : ClientState) : ClientState :=
  { s with isConnected := false, initialized := false, sessionId := none, pending := [] }

/-- Truthiness of an optional string (JS: undefined and the empty string
are falsy). -/
def strTruthy : Option String → Bool
  | none => false
  | some v => v ≠ ""

/-- The guard phase of MCPClient.callTool: reject before initialization,
fall back from a falsy caller sessionId to the stored one, reject when
neither is available; otherwise the request is registered with a fresh
uuid and handed to sendRequest. -/
def callTool (s : ClientState) (sessionId : Option String) (freshId : String) :
    Except String ClientState :=
  if s.initialized = false then .error "MCP client not initialized"
  else
    let effectiveSessionId := if strTruthy sessionId then sessionId else s.sessionId
    if strTruthy effectiveSessionId = false then .error "No sessionId available for tool call"
    else .ok (sendRequestRegister s freshId)

/-- The asynchronous events that can touch the correlation registry
after a request is registered. -/
inductive ClientEvent where
  | sse (message : MCPMessage)
  | timeout (i : String)
  | postError (i : String)
  | disconnectEvent
deriving Repr, DecidableEq

/-- One scheduler step. -/
def step (s : ClientState) : ClientEvent → ClientState
  | .sse message => handleSSEMessage s message
  | .timeout i => timeoutFire s i
  | .postError i => postErrorFire s i
  | .disconnectEvent => disconnect s

/-- A whole event trace. -/
def run (s : ClientState) : List ClientEvent → ClientState
  | [] => s
  | e :: es => run (step s e) es

/-! ## LangChainMCPAgent.processMessage: conversation history -/

/-- LangChain chat messages as stored in the per-session history. -/
inductive ChatMessage where
  | human (text : String)
  | ai (text : String)
deriving Repr, DecidableEq

/-- The history-update tail of processMessage: append the new pair, then
splice away the oldest entries whenever the length exceeds 20. -/
def updateConversationHistory (chatHistory : List ChatMessage) (message response : String) :
    List ChatMessage :=
  let updatedHistory := chatHistory ++ [.human message, .ai response]
  if updatedHistory.length > 20 then
    updatedHistory.drop (updatedHistory.length - 20)
  else updatedHistory

/-- conversationHistory.set(sessionId, updatedHistory). -/
def storeConversationHistory (histories : List (String × List ChatMessage))
    (sessionId : String) (h : List ChatMessage) : List (String × List ChatMessage) :=
  setKey histories sessionId h

/-! ## Concrete instances used by the verification -/

/-- The two-number schema of the arithmetic example. -/
def twoNumberSchema : ToolInputSchema :=
  { properties := [("firstNumber", { type := "number" }), ("secondNumber", { type := "number" })],
    required := ["firstNumber", "secondNumber"] }

/-- A schema with one required string parameter named query. -/
def querySchema : ToolInputSchema :=
  { properties := [("query", { type := "string" })], required := ["query"] }

/-- A schema with one optional number parameter. -/
def optionalNumberSchema : ToolInputSchema :=
  { properties := [("x", { type := "number" })], required := [] }

/-- A schema with one required enum-bearing string parameter. -/
def enumColorSchema : ToolInputSchema :=
  { properties := [("color", { type := "string", enum := some ["red", "blue"] })],
    required := ["color"] }

/-- A successful result whose two text items include an empty one. -/
def emptyTextResult : MCPToolResult :=
  { content := [{ type := "text", text := some "A" }, { type := "text", text := some "" }],
    isError := some false }

/-- A connected client with one pending request r1 (armed timer). -/
def onePendingState : ClientState :=
  { pending := ["r1"], settled := [], timeouts := ["r1"],
    isConnected := true, initialized := true, sessionId := some "sess" }

/-! ## Helper lemmas: association lists -/

theorem lookupKey_setKey_self {α : Type} (l : List (String × α)) (k : String) (v : α) :
    lookupKey (setKey l k v) k = some v := by
  induction l with
  | nil => simp [setKey, lookupKey]
  | cons p rest ih =>
    obtain ⟨k2, v2⟩ := p
    by_cases h : k2 = k
    · subst h
      simp [setKey, lookupKey]
    · simp [setKey, lookupKey, h, ih]

theorem lookupKey_setKey_ne {α : Type} (l : List (String × α)) (k2 k : String) (v : α)
    (h : k2 ≠ k) : lookupKey (setKey l k2 v) k = lookupKey l k := by
  induction l with
  | nil => simp [setKey, lookupKey, h]
  | cons p rest ih =>
    obtain ⟨k3, v3⟩ := p
    by_cases h3 : k3 = k2
    · subst h3
      simp [setKey, lookupKey, h]
    · by_cases h4 : k3 = k
      · subst h4
        simp [setKey, lookupKey, h3]
      · simp [setKey, lookupKey, h3, h4, ih]

theorem lookupKey_none_not_mem {α : Type} (l : List (String × α)) (k : String)
    (h : lookupKey l k = none) : ∀ p ∈ l, p.1 ≠ k := by
  induction l with
  | nil => intro p hp; cases hp
  | cons q rest ih =>
    obtain ⟨k2, v2⟩ := q
    intro p hp
    by_cases h2 : k2 = k
    · subst h2
      simp [lookupKey] at h
    · simp [lookupKey, h2] at h
      rcases List.mem_cons.mp hp with hp | hp
      · subst hp; exact h2
      · exact ih h p hp

/-! ## Helper lemmas: identifier lists of the correlation registry -/

theorem hasId_removeId_self (l : List String) (i : String) :
    hasId (removeId l i) i = false := by
  induction l with
  | nil => rfl
  | cons x rest ih =>
    by_cases h : x = i
    · simp [removeId, h, ih]
    · simp [removeId, hasId, h, ih]

theorem hasId_removeId_ne (l : List String) (j i : String) (h : j ≠ i) :
    hasId (removeId l j) i = hasId l i := by
  induction l with
  | nil => rfl
  | cons x rest ih =>
    by_cases h2 : x = j
    · subst h2
      simp [removeId, hasId, h, ih]
    · simp [removeId, hasId, h2, ih]

theorem hasId_append_self (l : List String) (i : String) :
    hasId (l ++ [i]) i = true := by
  induction l with
  | nil => simp [hasId]
  | cons x rest ih =>
    by_cases h : x = i
    · simp [hasId, h]
    · simp [hasId, h, ih]

theorem hasId_addId_self (l : List String) (i : String) :
    hasId (addId l i) i = true := by
  unfold addId
  by_cases h : hasId l i
  · simp [h]
  · simp [h, hasId_append_self]

/-! ## Helper lemmas: the settlement ledger -/

theorem settledFor_none_count (l : List (String × Completion)) (i : String)
    (h : settledFor l i = none) : settledCount l i = 0 := by
  induction l with
  | nil => rfl
  | cons p rest ih =>
    obtain ⟨j, c⟩ := p
    by_cases h2 : j = i
    · subst h2
      simp [settledFor] at h
    · simp [settledFor, h2] at h
      simp [settledCount, h2, ih h]

theorem settledFor_some_count (l : List (String × Completion)) (i : String) (c : Completion)
    (h : settledFor l i = some c) : 1 ≤ settledCount l i := by
  induction l with
  | nil => simp [settledFor] at h
  | cons p rest ih =>
    obtain ⟨j, c2⟩ := p
    by_cases h2 : j = i
    · subst h2
      simp [settledCount]
    · simp [settledFor, h2] at h
      simp [settledCount, h2]
      exact ih h

theorem settledFor_append_left (l1 l2 : List (String × Completion)) (i : String)
    (c : Completion) (h : settledFor l1 i = some c) :
    settledFor (l1 ++ l2) i = some c := by
  induction l1 with
  | nil => simp [settledFor] at h
  | cons p rest ih =>
    obtain ⟨j, c2⟩ := p
    by_cases h2 : j = i
    · subst h2
      simp [settledFor] at h ⊢
      exact h
    · simp [settledFor, h2] at h ⊢
      exact ih h

theorem settledFor_append_right (l1 l2 : List (String × Completion)) (i : String)
    (h : settledFor l1 i = none) : settledFor (l1 ++ l2) i = settledFor l2 i := by
  induction l1 with
  | nil => rfl
  | cons p rest ih =>
    obtain ⟨j, c2⟩ := p
    by_cases h2 : j = i
    · subst h2
      simp [settledFor] at h
    · simp [settledFor, h2] at h ⊢
      exact ih h

theorem settledCount_append (l1 l2 : List (String × Completion)) (i : String) :
    settledCount (l1 ++ l2) i = settledCount l1 i + settledCount l2 i := by
  induction l1 with
  | nil => simp [settledCount]
  | cons p rest ih =>
    obtain ⟨j, c2⟩ := p
    simp [settledCount, ih]
    omega

theorem settlePromise_count_le (l : List (String × Completion)) (i : String) (c : Completion)
    (h : settledCount l i ≤ 1) : settledCount (settlePromise l i c) i ≤ 1 := by
  unfold settlePromise
  by_cases hs : isSettled l i
  · simp [hs, h]
  · simp [hs]
    unfold isSettled at hs
    simp at hs
    rw [settledCount_append]
    rw [settledFor_none_count l i hs]
    simp [settledCount]

theorem settlePromise_count_ne (l : List (String × Completion)) (j i : String) (c : Completion)
    (h : j ≠ i) : settledCount (settlePromise l j c) i = settledCount l i := by
  unfold settlePromise
  by_cases hs : isSettled l j
  · simp [hs]
  · simp [hs, settledCount_append, settledCount, h]

theorem isSettled_settlePromise_self (l : List (String × Completion)) (i : String)
    (c : Completion) : isSettled (settlePromise l i c) i = true := by
  unfold settlePromise
  by_cases hs : isSettled l i
  · simp [hs]
  · simp [hs]
    unfold isSettled at hs ⊢
    simp at hs
    rw [settledFor_append_right l [(i, c)] i hs]
    simp [settledFor]

theorem isSettled_settlePromise_mono (l : List (String × Completion)) (j i : String)
    (c : Completion) (h : isSettled l i = true) :
    isSettled (settlePromise l j c) i = true := by
  unfold settlePromise
  by_cases hs : isSettled l j
  · simp [hs, h]
  · simp [hs]
    unfold isSettled at h ⊢
    rw [Option.isSome_iff_exists] at h
    obtain ⟨c0, hc0⟩ := h
    rw [settledFor_append_left l [(j, c)] i c0 hc0]
    rfl

theorem settledFor_settlePromise_ne (l : List (String × Completion)) (j i : String)
    (c : Completion) (h : j ≠ i) :
    settledFor (settlePromise l j c) i = settledFor l i := by
  unfold settlePromise
  by_cases hs : isSettled l j
  · simp [hs]
  · simp [hs]
    by_cases h2 : (settledFor l i).isSome
    · rw [Option.isSome_iff_exists] at h2
      obtain ⟨c0, hc0⟩ := h2
      rw [settledFor_append_left l [(j, c)] i c0 hc0, hc0]
    · rw [settledFor_append_right l [(j, c)] i (Option.not_isSome_iff_eq_none.mp h2)]
      rw [Option.not_isSome_iff_eq_none.mp h2]
      simp [settledFor, h]

theorem settledFor_settlePromise_of_some (l : List (String × Completion)) (i : String)
    (c c0 : Completion) (h : settledFor l i = some c0) :
    settledFor (settlePromise l i c) i = some c0 := by
  unfold settlePromise
  by_cases hs : isSettled l i
  · simp [hs, h]
  · unfold isSettled at hs
    simp [h] at hs

theorem settledFor_settlePromise_of_none (l : List (String × Completion)) (i : String)
    (c : Completion) (h : settledFor l i = none) :
    settledFor (settlePromise l i c) i = some c := by
  unfold settlePromise
  by_cases hs : isSettled l i
  · unfold isSettled at hs
    simp [h] at hs
  · simp [hs]
    rw [settledFor_append_right l [(i, c)] i h]
    simp [settledFor]

theorem isSettled_count_pos (l : List (String × Completion)) (i : String)
    (h : isSettled l i = true) : 1 ≤ settledCount l i := by
  unfold isSettled at h
  rw [Option.isSome_iff_exists] at h
  obtain ⟨c, hc⟩ := h
  exact settledFor_some_count l i c hc

/-! ## Correlation registry invariants -/

theorem isSettled_settlePromise_ne (l : List (String × Completion)) (j i : String)
    (c : Completion) (h : j ≠ i) :
    isSettled (settlePromise l j c) i = isSettled l i := by
  unfold isSettled
  rw [settledFor_settlePromise_ne l j i c h]

/-- The per-identifier registry invariant: at most one settlement, no
pending entry once settled, and a settlement or an armed timer. -/
def RegInv (i : String) (s : ClientState) : Prop :=
  settledCount s.settled i ≤ 1 ∧
  (isSettled s.settled i = true → hasId s.pending i = false) ∧
  (isSettled s.settled i = true ∨ hasId s.timeouts i = true)

/-- Invariant preservation for the settle-and-delete shape shared by the
three completion paths (new settled list, pending entry removed). -/
theorem regInv_settle_delete (i j : String) (pend tim : List String)
    (led : List (String × Completion)) (c : Completion)
    (h1 : settledCount led i ≤ 1)
    (h2 : isSettled led i = true → hasId pend i = false)
    (h3 : isSettled led i = true ∨ hasId tim i = true) :
    settledCount (settlePromise led j c) i ≤ 1 ∧
    (isSettled (settlePromise led j c) i = true → hasId (removeId pend j) i = false) ∧
    (isSettled (settlePromise led j c) i = true ∨ hasId tim i = true) := by
  by_cases hji : j = i
  · subst hji
    refine ⟨settlePromise_count_le _ _ _ h1, ?_, ?_⟩
    · intro _
      exact hasId_removeId_self _ _
    · exact Or.inl (isSettled_settlePromise_self _ _ _)
  · refine ⟨?_, ?_, ?_⟩
    · rw [settlePromise_count_ne _ _ _ _ hji]
      exact h1
    · intro hset
      rw [isSettled_settlePromise_ne _ _ _ _ hji] at hset
      rw [hasId_removeId_ne _ _ _ hji]
      exact h2 hset
    · rcases h3 with h3 | h3
      · exact Or.inl (isSettled_settlePromise_mono _ _ _ _ h3)
      · exact Or.inr h3

theorem regInv_step (i : String) (s : ClientState) (e : ClientEvent)
    (h : RegInv i s) : RegInv i (step s e) := by
  obtain ⟨h1, h2, h3⟩ := h
  cases e with
  | sse m =>
    show RegInv i (handleSSEMessage s m)
    unfold handleSSEMessage
    split
    · split
      · exact regInv_settle_delete i _ s.pending s.timeouts s.settled
          (callbackCompletion m) h1 h2 h3
      · exact ⟨h1, h2, h3⟩
    · exact ⟨h1, h2, h3⟩
  | timeout j =>
    show RegInv i (timeoutFire s j)
    unfold timeoutFire
    by_cases hg : hasId s.timeouts j
    · rw [if_pos hg]
      by_cases hji : j = i
      · subst hji
        refine ⟨settlePromise_count_le _ _ _ h1, ?_, ?_⟩
        · intro _
          exact hasId_removeId_self _ _
        · exact Or.inl (isSettled_settlePromise_self _ _ _)
      · refine ⟨?_, ?_, ?_⟩
        · rw [settlePromise_count_ne _ _ _ _ hji]
          exact h1
        · intro hset
          rw [isSettled_settlePromise_ne _ _ _ _ hji] at hset
          rw [hasId_removeId_ne _ _ _ hji]
          exact h2 hset
        · rcases h3 with h3 | h3
          · exact Or.inl (isSettled_settlePromise_mono _ _ _ _ h3)
          · right
            rw [hasId_removeId_ne _ _ _ hji]
            exact h3
    · rw [if_neg hg]
      exact ⟨h1, h2, h3⟩
  | postError j =>
    show RegInv i (postErrorFire s j)
    unfold postErrorFire
    by_cases hji : j = i
    · subst hji
      refine ⟨settlePromise_count_le _ _ _ h1, ?_, ?_⟩
      · intro _
        exact hasId_removeId_self _ _
      · exact Or.inl (isSettled_settlePromise_self _ _ _)
    · refine ⟨?_, ?_, ?_⟩
      · rw [settlePromise_count_ne _ _ _ _ hji]
        exact h1
      · intro hset
        rw [isSettled_settlePromise_ne _ _ _ _ hji] at hset
        rw [hasId_removeId_ne _ _ _ hji]
        exact h2 hset
      · rcases h3 with h3 | h3
        · exact Or.inl (isSettled_settlePromise_mono _ _ _ _ h3)
        · right
          rw [hasId_removeId_ne _ _ _ hji]
          exact h3
  | disconnectEvent =>
    show RegInv i (disconnect s)
    exact ⟨h1, fun _ => rfl, h3⟩

theorem regInv_run (i : String) (s : ClientState) (evs : List ClientEvent)
    (h : RegInv i s) : RegInv i (run s evs) := by
  induction evs generalizing s with
  | nil => exact h
  | cons e rest ih => exact ih (step s e) (regInv_step i s e h)

theorem run_append (s : ClientState) (l1 l2 : List ClientEvent) :
    run s (l1 ++ l2) = run (run s l1) l2 := by
  induction l1 generalizing s with
  | nil => rfl
  | cons e rest ih => exact ih (step s e)

theorem isSettled_step_mono (i : String) (s : ClientState) (e : ClientEvent)
    (h : isSettled s.settled i = true) : isSettled (step s e).settled i = true := by
  cases e with
  | sse m =>
    show isSettled (handleSSEMessage s m).settled i = true
    unfold handleSSEMessage
    split
    · split
      · exact isSettled_settlePromise_mono _ _ _ _ h
      · exact h
    · exact h
  | timeout j =>
    show isSettled (timeoutFire s j).settled i = true
    unfold timeoutFire
    by_cases hg : hasId s.timeouts j
    · rw [if_pos hg]
      exact isSettled_settlePromise_mono _ _ _ _ h
    · rw [if_neg hg]
      exact h
  | postError j => exact isSettled_settlePromise_mono _ _ _ _ h
  | disconnectEvent => exact h

theorem isSettled_run_mono (i : String) (s : ClientState) (evs : List ClientEvent)
    (h : isSettled s.settled i = true) : isSettled (run s evs).settled i = true := by
  induction evs generalizing s with
  | nil => exact h
  | cons e rest ih => exact ih (step s e) (isSettled_step_mono i s e h)

theorem timeout_step_settles (i : String) (s : ClientState)
    (h3 : isSettled s.settled i = true ∨ hasId s.timeouts i = true) :
    isSettled (step s (.timeout i)).settled i = true := by
  show isSettled (timeoutFire s i).settled i = true
  unfold timeoutFire
  by_cases hg : hasId s.timeouts i
  · rw [if_pos hg]
    exact isSettled_settlePromise_self _ _ _
  · rw [if_neg hg]
    rcases h3 with h3 | h3
    · exact h3
    · exact absurd h3 hg

/-- No step except a send failure for this identifier can introduce a
send-error settlement. -/
def NoSendErr (i : String) (s : ClientState) : Prop :=
  ∀ c, settledFor s.settled i = some c → c ≠ Completion.sendError

theorem callbackCompletion_ne_sendError (m : MCPMessage) :
    callbackCompletion m ≠ Completion.sendError := by
  unfold callbackCompletion
  cases m.error <;> simp

theorem noSendErr_settle_self (l : List (String × Completion)) (i : String) (c : Completion)
    (hc : c ≠ Completion.sendError)
    (h : ∀ c2, settledFor l i = some c2 → c2 ≠ Completion.sendError) :
    ∀ c2, settledFor (settlePromise l i c) i = some c2 → c2 ≠ Completion.sendError := by
  intro c2 h2
  cases hl : settledFor l i with
  | none =>
    rw [settledFor_settlePromise_of_none l i c hl] at h2
    exact (Option.some.inj h2) ▸ hc
  | some c0 =>
    rw [settledFor_settlePromise_of_some l i c c0 hl] at h2
    exact (Option.some.inj h2) ▸ h c0 hl

theorem noSendErr_step (i : String) (s : ClientState) (e : ClientEvent)
    (he : e ≠ ClientEvent.postError i) (h : NoSendErr i s) : NoSendErr i (step s e) := by
  cases e with
  | sse m =>
    show NoSendErr i (handleSSEMessage s m)
    unfold handleSSEMessage
    split
    next _ j hj =>
      split
      next hg =>
        by_cases hji : j = i
        · subst hji
          exact noSendErr_settle_self _ _ _ (callbackCompletion_ne_sendError m) h
        · intro c hc
          have hc2 : settledFor (settlePromise s.settled j (callbackCompletion m)) i = some c := hc
          rw [settledFor_settlePromise_ne _ _ _ _ hji] at hc2
          exact h c hc2
      next hg => exact h
    next => exact h
  | timeout j =>
    show NoSendErr i (timeoutFire s j)
    unfold timeoutFire
    by_cases hg : hasId s.timeouts j
    · rw [if_pos hg]
      by_cases hji : j = i
      · subst hji
        exact noSendErr_settle_self _ _ _ (by simp) h
      · intro c hc
        have hc2 : settledFor (settlePromise s.settled j Completion.timeoutError) i = some c := hc
        rw [settledFor_settlePromise_ne _ _ _ _ hji] at hc2
        exact h c hc2
    · rw [if_neg hg]
      exact h
  | postError j =>
    show NoSendErr i (postErrorFire s j)
    have hji : j ≠ i := by
      intro hji
      exact he (by rw [hji])
    intro c hc
    have hc2 : settledFor (settlePromise s.settled j Completion.sendError) i = some c := hc
    rw [settledFor_settlePromise_ne _ _ _ _ hji] at hc2
    exact h c hc2
  | disconnectEvent => exact h

theorem noSendErr_run (i : String) (s : ClientState) (evs : List ClientEvent)
    (he : ∀ e ∈ evs, e ≠ ClientEvent.postError i) (h : NoSendErr i s) :
    NoSendErr i (run s evs) := by
  induction evs generalizing s with
  | nil => exact h
  | cons e rest ih =>
    exact ih (step s e)
      (fun e2 he2 => he e2 (List.mem_cons_of_mem e he2))
      (noSendErr_step i s e (he e (List.mem_cons_self e rest)) h)

/-! ## Cleaning-pass lemmas (validateAndCleanArgs) -/

theorem cleanStep_lookup_ne (props : List (String × PropSchema)) (acc : List (String × JVal))
    (k2 k : String) (v : JVal) (h : k2 ≠ k) :
    lookupKey (cleanStep props acc k2 v) k = lookupKey acc k := by
  unfold cleanStep
  cases hl : lookupKey props k2 with
  | none => simp
  | some ps =>
    simp only []
    cases hc : cleanValue ps v with
    | none => simp
    | some v2 =>
      simp only []
      exact lookupKey_setKey_ne acc k2 k v2 h

theorem cleanArgsLoop_lookup_none (props : List (String × PropSchema))
    (acc : List (String × JVal)) (args : List (String × JVal)) (k : String)
    (hargs : ∀ p ∈ args, p.1 ≠ k) (hacc : lookupKey acc k = none) :
    lookupKey (cleanArgsLoop props acc args) k = none := by
  induction args generalizing acc with
  | nil => exact hacc
  | cons p rest ih =>
    obtain ⟨k2, v2⟩ := p
    have hk2 : k2 ≠ k := hargs (k2, v2) (List.mem_cons_self _ _)
    exact ih (cleanStep props acc k2 v2)
      (fun q hq => hargs q (List.mem_cons_of_mem _ hq))
      (by rw [cleanStep_lookup_ne props acc k2 k v2 hk2]; exact hacc)

theorem cleanArgsLoop_append (props : List (String × PropSchema))
    (acc : List (String × JVal)) (l1 l2 : List (String × JVal)) :
    cleanArgsLoop props acc (l1 ++ l2) = cleanArgsLoop props (cleanArgsLoop props acc l1) l2 := by
  induction l1 generalizing acc with
  | nil => rfl
  | cons p rest ih =>
    obtain ⟨k2, v2⟩ := p
    exact ih (cleanStep props acc k2 v2)

theorem cleanValue_numeric_parse_failure (ps : PropSchema) (v : JVal)
    (hty : ps.type = "number" ∨ ps.type = "integer")
    (hnn : v.isNull = false) (hpf : parseFloatOpt (jsToString v) = none) :
    cleanValue ps v = none := by
  unfold cleanValue
  rw [if_pos hty, hnn, hpf]
  rfl

theorem cleanStep_dropped (props : List (String × PropSchema)) (acc : List (String × JVal))
    (k : String) (v : JVal) (ps : PropSchema)
    (hk : lookupKey props k = some ps) (hcv : cleanValue ps v = none) :
    cleanStep props acc k v = acc := by
  unfold cleanStep
  rw [hk]
  simp only []
  rw [hcv]

/-- Splitting an association list at a key that occurs exactly once. -/
theorem lookup_nodup_split {α : Type} (args : List (String × α)) (k : String) (v : α)
    (hv : lookupKey args k = some v) (hnodup : (args.map Prod.fst).Nodup) :
    ∃ l1 l2, args = l1 ++ (k, v) :: l2 ∧
      (∀ p ∈ l1, p.1 ≠ k) ∧ (∀ p ∈ l2, p.1 ≠ k) := by
  induction args with
  | nil => simp [lookupKey] at hv
  | cons p rest ih =>
    obtain ⟨k2, v2⟩ := p
    by_cases h2 : k2 = k
    · subst h2
      simp [lookupKey] at hv
      subst hv
      refine ⟨[], rest, rfl, by simp, ?_⟩
      intro q hq hqk
      simp at hnodup
      exact hnodup.1 q.2 (hqk ▸ (show (q.1, q.2) ∈ rest from hq))
    · simp [lookupKey, h2] at hv
      simp at hnodup
      obtain ⟨l1, l2, heq, hl1, hl2⟩ := ih hv hnodup.2
      refine ⟨(k2, v2) :: l1, l2, by rw [heq]; rfl, ?_, hl2⟩
      intro q hq
      rcases List.mem_cons.mp hq with hq | hq
      · subst hq; exact h2
      · exact hl1 q hq

theorem requiredFillAcc_lookup_ne (props : List (String × PropSchema))
    (acc : List (String × JVal)) (rp k : String) (h : rp ≠ k) :
    lookupKey (requiredFillAcc props acc rp) k = lookupKey acc k := by
  unfold requiredFillAcc
  cases lookupKey props rp with
  | none => simp
  | some ps =>
    simp only []
    cases requiredFillValue ps with
    | none => simp
    | some d =>
      simp only []
      exact lookupKey_setKey_ne acc rp k d h

theorem requiredFillLoop_lookup_some (props : List (String × PropSchema)) (tn : String)
    (rps : List String) (acc : List (String × JVal)) (ws : List String)
    (k : String) (w : JVal) (h : lookupKey acc k = some w) :
    lookupKey (requiredFillLoop props tn rps (acc, ws)).1 k = some w := by
  induction rps generalizing acc ws with
  | nil => exact h
  | cons rp rest ih =>
    unfold requiredFillLoop
    by_cases hh : hasKey acc rp
    · rw [if_pos hh]
      exact ih acc ws h
    · rw [if_neg hh]
      have hrpk : rp ≠ k := by
        intro he
        subst he
        unfold hasKey at hh
        rw [h] at hh
        exact hh rfl
      exact ih _ _ (by rw [requiredFillAcc_lookup_ne props acc rp k hrpk]; exact h)

theorem requiredFillLoop_lookup_none_notmem (props : List (String × PropSchema)) (tn : String)
    (rps : List String) (acc : List (String × JVal)) (ws : List String)
    (k : String) (hmem : k ∉ rps) (h : lookupKey acc k = none) :
    lookupKey (requiredFillLoop props tn rps (acc, ws)).1 k = none := by
  induction rps generalizing acc ws with
  | nil => exact h
  | cons rp rest ih =>
    have hrpk : rp ≠ k := fun he => hmem (he ▸ List.mem_cons_self rp rest)
    have hrest : k ∉ rest := fun hr => hmem (List.mem_cons_of_mem rp hr)
    unfold requiredFillLoop
    by_cases hh : hasKey acc rp
    · rw [if_pos hh]
      exact ih acc ws hrest h
    · rw [if_neg hh]
      exact ih _ _ hrest (by rw [requiredFillAcc_lookup_ne props acc rp k hrpk]; exact h)

theorem requiredFillLoop_fills (props : List (String × PropSchema)) (tn : String)
    (rps : List String) (acc : List (String × JVal)) (ws : List String)
    (k : String) (ps : PropSchema)
    (hmem : k ∈ rps) (hk : lookupKey props k = some ps) (h : lookupKey acc k = none) :
    lookupKey (requiredFillLoop props tn rps (acc, ws)).1 k = requiredFillValue ps := by
  induction rps generalizing acc ws with
  | nil => cases hmem
  | cons rp rest ih =>
    unfold requiredFillLoop
    by_cases hrpk : rp = k
    · subst hrpk
      have hh : ¬ (hasKey acc rp = true) := by
        unfold hasKey
        rw [h]
        simp
      rw [if_neg hh]
      cases hfv : requiredFillValue ps with
      | some d =>
        have hacc2 : requiredFillAcc props acc rp = setKey acc rp d := by
          unfold requiredFillAcc
          rw [hk]
          simp only []
          rw [hfv]
        rw [hacc2]
        exact requiredFillLoop_lookup_some props tn rest _ _ rp d
          (lookupKey_setKey_self acc rp d)
      | none =>
        have hacc2 : requiredFillAcc props acc rp = acc := by
          unfold requiredFillAcc
          rw [hk]
          simp only []
          rw [hfv]
        rw [hacc2]
        by_cases hr : rp ∈ rest
        · exact hfv ▸ ih acc _ hr h
        · exact requiredFillLoop_lookup_none_notmem props tn rest acc _ rp hr h
    · have hrest : k ∈ rest := by
        rcases List.mem_cons.mp hmem with he | he
        · exact absurd he.symm hrpk
        · exact he
      by_cases hh : hasKey acc rp
      · rw [if_pos hh]
        exact ih acc ws hrest h
      · rw [if_neg hh]
        exact ih _ _ hrest (by rw [requiredFillAcc_lookup_ne props acc rp k hrpk]; exact h)

theorem requiredFillLoop_warns_mono (props : List (String × PropSchema)) (tn : String)
    (rps : List String) (acc : List (String × JVal)) (ws : List String)
    (msg : String) (h : msg ∈ ws) :
    msg ∈ (requiredFillLoop props tn rps (acc, ws)).2 := by
  induction rps generalizing acc ws with
  | nil => exact h
  | cons rp rest ih =>
    unfold requiredFillLoop
    by_cases hh : hasKey acc rp
    · rw [if_pos hh]
      exact ih acc ws h
    · rw [if_neg hh]
      exact ih _ _ (List.mem_append_left _ h)

theorem requiredFillLoop_warns (props : List (String × PropSchema)) (tn : String)
    (rps : List String) (acc : List (String × JVal)) (ws : List String)
    (k : String) (hmem : k ∈ rps) (h : lookupKey acc k = none) :
    missingParamWarning k tn ∈ (requiredFillLoop props tn rps (acc, ws)).2 := by
  induction rps generalizing acc ws with
  | nil => cases hmem
  | cons rp rest ih =>
    unfold requiredFillLoop
    by_cases hrpk : rp = k
    · subst hrpk
      have hh : ¬ (hasKey acc rp = true) := by
        unfold hasKey
        rw [h]
        simp
      rw [if_neg hh]
      exact requiredFillLoop_warns_mono props tn rest _ _ _
        (List.mem_append_right _ (List.mem_singleton.mpr rfl))
    · have hrest : k ∈ rest := by
        rcases List.mem_cons.mp hmem with he | he
        · exact absurd he.symm hrpk
        · exact he
      by_cases hh : hasKey acc rp
      · rw [if_pos hh]
        exact ih acc ws hrest h
      · rw [if_neg hh]
        exact ih _ _ hrest (by rw [requiredFillAcc_lookup_ne props acc rp k hrpk]; exact h)

/-! ## Claim theorems -/

/-- C1 counterexample: when the outbound POST for request r1 fails, the
catch branch of sendRequest completes the handle with the raw send
error, which is none of the three completion kinds (success payload,
protocol error, timeout error) the claim enumerates. -/
theorem sendRequest_send_error_counterexample :
    settledFor (run (sendRequestRegister {} "r1")
        [ClientEvent.postError "r1"]).settled "r1" = some Completion.sendError ∧
    (∀ resp, Completion.sendError ≠ Completion.success resp) ∧
    (∀ emsg, Completion.sendError ≠ Completion.protocolError emsg) ∧
    Completion.sendError ≠ Completion.timeoutError := by
  refine ⟨rfl, ?_, ?_, by decide⟩
  · intro resp h
    cases h
  · intro emsg h
    cases h

/-- C1 amended: every request registered by sendRequest with a fresh
identifier is completed at most once along any event trace; once its
handle is settled the pendingRequests registry holds no entry for it;
when the armed 30-second timeout fires in the trace the handle ends
settled exactly once; and every completion is a success payload, a
protocol error, the timeout error, or — only when the outbound POST for
the identifier actually failed — the send error. -/
theorem sendRequest_completes_exactly_once (s0 : ClientState) (i : String)
    (evs : List ClientEvent) (hfresh : settledFor s0.settled i = none) :
    settledCount (run (sendRequestRegister s0 i) evs).settled i ≤ 1 ∧
    (isSettled (run (sendRequestRegister s0 i) evs).settled i = true →
      hasId (run (sendRequestRegister s0 i) evs).pending i = false) ∧
    (ClientEvent.timeout i ∈ evs →
      settledCount (run (sendRequestRegister s0 i) evs).settled i = 1) ∧
    (∀ c, settledFor (run (sendRequestRegister s0 i) evs).settled i = some c →
      (∃ resp, c = Completion.success resp) ∨
      (∃ emsg, c = Completion.protocolError emsg) ∨
      c = Completion.timeoutError ∨
      (c = Completion.sendError ∧ ClientEvent.postError i ∈ evs)) := by
  have hbase : RegInv i (sendRequestRegister s0 i) := by
    refine ⟨?_, ?_, ?_⟩
    · show settledCount s0.settled i ≤ 1
      rw [settledFor_none_count s0.settled i hfresh]
      omega
    · intro hset
      exfalso
      have h2 : isSettled s0.settled i = true := hset
      unfold isSettled at h2
      rw [hfresh] at h2
      simp at h2
    · exact Or.inr (hasId_addId_self s0.timeouts i)
  obtain ⟨hf1, hf2, hf3⟩ := regInv_run i _ evs hbase
  refine ⟨hf1, hf2, ?_, ?_⟩
  · intro hmem
    obtain ⟨l1, l2, heq⟩ := List.append_of_mem hmem
    subst heq
    have hmid := regInv_run i (sendRequestRegister s0 i) l1 hbase
    have hset1 : isSettled
        (step (run (sendRequestRegister s0 i) l1) (.timeout i)).settled i = true :=
      timeout_step_settles i _ hmid.2.2
    have hset2 : isSettled
        (run (step (run (sendRequestRegister s0 i) l1) (.timeout i)) l2).settled i = true :=
      isSettled_run_mono i _ l2 hset1
    have hge : 1 ≤ settledCount
        (run (sendRequestRegister s0 i) (l1 ++ ClientEvent.timeout i :: l2)).settled i := by
      rw [run_append]
      exact isSettled_count_pos _ i hset2
    have hle : settledCount
        (run (sendRequestRegister s0 i) (l1 ++ ClientEvent.timeout i :: l2)).settled i ≤ 1 :=
      (regInv_run i _ (l1 ++ ClientEvent.timeout i :: l2) hbase).1
    omega
  · intro c hc
    cases c with
    | success resp => exact Or.inl ⟨resp, rfl⟩
    | protocolError emsg => exact Or.inr (Or.inl ⟨emsg, rfl⟩)
    | timeoutError => exact Or.inr (Or.inr (Or.inl rfl))
    | sendError =>
      refine Or.inr (Or.inr (Or.inr ⟨rfl, ?_⟩))
      by_contra hnp
      have hne : ∀ e ∈ evs, e ≠ ClientEvent.postError i :=
        fun e he heq => hnp (heq ▸ he)
      have hbase2 : NoSendErr i (sendRequestRegister s0 i) := by
        intro c2 hc2
        have h2 : settledFor s0.settled i = some c2 := hc2
        rw [hfresh] at h2
        cases h2
      exact noSendErr_run i _ evs hne hbase2 Completion.sendError hc rfl

/-- C1 witness: a fresh client, one registered request r1, a matching
reply followed by the timeout firing. -/
theorem sendRequest_completes_exactly_once_witness :
    settledFor ({} : ClientState).settled "r1" = none ∧
    (settledCount (run (sendRequestRegister {} "r1")
        [ClientEvent.sse { id := some "r1" }, ClientEvent.timeout "r1"]).settled "r1" ≤ 1 ∧
    (isSettled (run (sendRequestRegister {} "r1")
        [ClientEvent.sse { id := some "r1" }, ClientEvent.timeout "r1"]).settled "r1" = true →
      hasId (run (sendRequestRegister {} "r1")
        [ClientEvent.sse { id := some "r1" }, ClientEvent.timeout "r1"]).pending "r1" = false) ∧
    (ClientEvent.timeout "r1" ∈
        [ClientEvent.sse { id := some "r1" }, ClientEvent.timeout "r1"] →
      settledCount (run (sendRequestRegister {} "r1")
        [ClientEvent.sse { id := some "r1" }, ClientEvent.timeout "r1"]).settled "r1" = 1) ∧
    (∀ c, settledFor (run (sendRequestRegister {} "r1")
        [ClientEvent.sse { id := some "r1" }, ClientEvent.timeout "r1"]).settled "r1" = some c →
      (∃ resp, c = Completion.success resp) ∨
      (∃ emsg, c = Completion.protocolError emsg) ∨
      c = Completion.timeoutError ∨
      (c = Completion.sendError ∧ ClientEvent.postError "r1" ∈
        [ClientEvent.sse { id := some "r1" }, ClientEvent.timeout "r1"]))) :=
  ⟨rfl, sendRequest_completes_exactly_once {} "r1"
    [ClientEvent.sse { id := some "r1" }, ClientEvent.timeout "r1"] rfl⟩

/-- C2 counterexample: disconnect on a client with one pending request
empties the registry but does not complete the pending handle with any
error at all, contradicting the claimed force-completion with a
disconnect error. -/
theorem disconnect_counterexample :
    (disconnect onePendingState).pending = [] ∧
    settledFor (disconnect onePendingState).settled "r1" = none :=
  ⟨rfl, rfl⟩

/-- C2 amended: disconnect clears the pendingRequests registry but
performs no completions: the settlement ledger and the armed per-request
timers are untouched, so outstanding handles are left to resolve later
by their individual timeouts. -/
theorem disconnect_clears_registry_only (s : ClientState) :
    (disconnect s).pending = [] ∧
    (disconnect s).settled = s.settled ∧
    (disconnect s).timeouts = s.timeouts :=
  ⟨rfl, rfl, rfl⟩

/-- C7: callTool invoked before initialization, or with a falsy caller
session identifier and no truthy stored one, rejects with the
corresponding connection-not-ready error and never reaches registration
or the outbound transport. -/
theorem callTool_rejects_before_ready (s : ClientState) (sid : Option String) (fid : String)
    (h : s.initialized = false ∨ (strTruthy sid = false ∧ strTruthy s.sessionId = false)) :
    (callTool s sid fid = .error "MCP client not initialized" ∨
     callTool s sid fid = .error "No sessionId available for tool call") ∧
    ∀ s2, callTool s sid fid ≠ .ok s2 := by
  unfold callTool
  rcases h with hinit | ⟨hs1, hs2⟩
  · rw [if_pos hinit]
    exact ⟨Or.inl rfl, fun s2 h2 => by cases h2⟩
  · by_cases hinit : s.initialized = false
    · rw [if_pos hinit]
      exact ⟨Or.inl rfl, fun s2 h2 => by cases h2⟩
    · rw [if_neg hinit]
      have heff : strTruthy (if strTruthy sid then sid else s.sessionId) = false := by
        rw [hs1]
        simp [hs2]
      rw [if_pos heff]
      exact ⟨Or.inr rfl, fun s2 h2 => by cases h2⟩

/-- C7 witness: an uninitialized client, and an initialized one with no
session identifier anywhere. -/
theorem callTool_rejects_before_ready_witness :
    (({} : ClientState).initialized = false ∨
      (strTruthy (some "x") = false ∧ strTruthy ({} : ClientState).sessionId = false)) ∧
    ((callTool {} (some "x") "f1" = .error "MCP client not initialized" ∨
      callTool {} (some "x") "f1" = .error "No sessionId available for tool call") ∧
     ∀ s2, callTool {} (some "x") "f1" ≠ .ok s2) :=
  ⟨Or.inl rfl, callTool_rejects_before_ready {} (some "x") "f1" (Or.inl rfl)⟩

/-- C8: an inbound message whose identifier is absent, falsy, or has no
matching pending entry (for example a reply arriving after its request
timed out) leaves the client state unchanged: nothing is completed, the
registry is untouched, and the listener does not fail. -/
theorem handleSSEMessage_drops_unmatched (s : ClientState) (m : MCPMessage)
    (h : ∀ j, m.id = some j → j = "" ∨ hasId s.pending j = false) :
    handleSSEMessage s m = s := by
  unfold handleSSEMessage
  split
  next _ j hj =>
    split
    next hg =>
      exfalso
      rcases h j hj with he | he
      · exact hg.1 he
      · rw [he] at hg
        exact Bool.false_ne_true hg.2
    next hg => rfl
  next => rfl

/-- C8 witness: a reply with identifier r9 while only r1 is pending. -/
theorem handleSSEMessage_drops_unmatched_witness :
    (∀ j, ({ id := some "r9" } : MCPMessage).id = some j →
      j = "" ∨ hasId onePendingState.pending j = false) ∧
    handleSSEMessage onePendingState { id := some "r9" } = onePendingState :=
  ⟨fun j hj => by cases hj; exact Or.inr rfl,
   handleSSEMessage_drops_unmatched onePendingState { id := some "r9" }
     (fun j hj => by cases hj; exact Or.inr rfl)⟩

/-- C3: free-text inference of "5 3 add" against the two-number schema
extracts the numeric substrings 5 and 3, assigns them in order of
appearance to the numeric parameters in declared order, and assigns the
non-numeric token to nothing. -/
theorem mapInputToSchema_five_three_add :
    mapInputToSchema twoNumberSchema (.str "5 3 add") =
      .obj [("firstNumber", .num 5), ("secondNumber", .num 3)] := rfl

/-- C4: the empty object against a schema requiring the string parameter
query is prepared without failing: the cleaning pass synthesizes the
empty string for query, records the missing-parameter warning, and the
argument set passed onward is exactly that binding (the preparation
phase is a total function, so it cannot throw). -/
theorem prepareArgs_empty_object_query :
    prepareArgs querySchema "searchTool" (.obj []) =
      ([("query", .str "")], [missingParamWarning "query" "searchTool"]) := rfl

/-- C5 counterexample: an optional number parameter whose value fails
numeric parsing is dropped from the cleaned argument set, not kept with
value zero as claimed. -/
theorem cleanArgs_parse_failure_counterexample :
    validateAndCleanArgs optionalNumberSchema "calculator" [("x", .str "abc")] = [] ∧
    lookupKey (validateAndCleanArgs optionalNumberSchema "calculator" [("x", .str "abc")]) "x"
      = none :=
  ⟨rfl, rfl⟩

/-- C5 amended: a present numeric-typed field whose value fails numeric
parsing is dropped by the cleaning loop; it ends up present with value 0
only when the field is required (the required-fill pass adds it), and is
absent from the output otherwise. -/
theorem cleanArgs_numeric_parse_failure (schema : ToolInputSchema) (toolName k : String)
    (args : List (String × JVal)) (ps : PropSchema) (v : JVal)
    (hk : lookupKey schema.properties k = some ps)
    (hty : ps.type = "number" ∨ ps.type = "integer")
    (hv : lookupKey args k = some v)
    (hnodup : (args.map Prod.fst).Nodup)
    (hnn : v.isNull = false)
    (hpf : parseFloatOpt (jsToString v) = none) :
    lookupKey (validateAndCleanArgs schema toolName args) k =
      if k ∈ schema.required then some (JVal.num 0) else none := by
  obtain ⟨l1, l2, heq, hl1, hl2⟩ := lookup_nodup_split args k v hv hnodup
  subst heq
  have hclean : lookupKey (cleanArgsLoop schema.properties [] (l1 ++ (k, v) :: l2)) k = none := by
    rw [cleanArgsLoop_append]
    have hmid : lookupKey (cleanArgsLoop schema.properties [] l1) k = none :=
      cleanArgsLoop_lookup_none _ [] l1 k hl1 rfl
    show lookupKey (cleanArgsLoop schema.properties
        (cleanStep schema.properties (cleanArgsLoop schema.properties [] l1) k v) l2) k = none
    rw [cleanStep_dropped _ _ k v ps hk (cleanValue_numeric_parse_failure ps v hty hnn hpf)]
    exact cleanArgsLoop_lookup_none _ _ l2 k hl2 hmid
  unfold validateAndCleanArgs validateAndCleanArgsW
  by_cases hreq : k ∈ schema.required
  · rw [if_pos hreq]
    rw [requiredFillLoop_fills schema.properties toolName schema.required _ [] k ps hreq hk hclean]
    unfold requiredFillValue
    rw [if_pos hty]
  · rw [if_neg hreq]
    exact requiredFillLoop_lookup_none_notmem schema.properties toolName
      schema.required _ [] k hreq hclean

/-- C5 amended witness: the optional number x bound to "abc". -/
theorem cleanArgs_numeric_parse_failure_witness :
    lookupKey optionalNumberSchema.properties "x" = some { type := "number" } ∧
    lookupKey [(("x" : String), JVal.str "abc")] "x" = some (JVal.str "abc") ∧
    ([(("x" : String), JVal.str "abc")].map Prod.fst).Nodup ∧
    (JVal.str "abc").isNull = false ∧
    parseFloatOpt (jsToString (JVal.str "abc")) = none ∧
    lookupKey (validateAndCleanArgs optionalNumberSchema "calculator" [("x", .str "abc")]) "x" =
      if "x" ∈ optionalNumberSchema.required then some (JVal.num 0) else none :=
  ⟨rfl, rfl, by simp, rfl, rfl,
   cleanArgs_numeric_parse_failure optionalNumberSchema "calculator" "x"
     [("x", .str "abc")] { type := "number" } (.str "abc")
     rfl (Or.inl rfl) rfl (by simp) rfl rfl⟩

/-- C6 counterexample: a required string parameter with an enum is
back-filled with the empty string by the cleaning pass, not with the
first enum value (which only getDefaultValueForSchema, used by the
free-text mapping path, would produce). -/
theorem requiredFill_enum_counterexample :
    validateAndCleanArgs enumColorSchema "paint" [] = [("color", .str "")] ∧
    getDefaultValueForSchema { type := "string", enum := some ["red", "blue"] } = .str "red" ∧
    JVal.str "" ≠ JVal.str "red" :=
  ⟨rfl, rfl, by intro h; injection h with h2; exact absurd h2 (by decide)⟩

/-- C6 amended: every required field still absent after cleaning is
filled with 0 for number/integer, the empty string for every string
parameter (enum or not), and false for boolean; required fields of any
other declared type stay absent; in each case the missing-parameter
warning is recorded, and the pass never fails. -/
theorem requiredFill_missing_defaults (schema : ToolInputSchema) (toolName k : String)
    (args : List (String × JVal)) (ps : PropSchema)
    (hreq : k ∈ schema.required)
    (hk : lookupKey schema.properties k = some ps)
    (habs : lookupKey args k = none) :
    lookupKey (validateAndCleanArgs schema toolName args) k = requiredFillValue ps ∧
    missingParamWarning k toolName ∈ (validateAndCleanArgsW schema toolName args).2 := by
  have hargs : ∀ p ∈ args, p.1 ≠ k := lookupKey_none_not_mem args k habs
  have hclean : lookupKey (cleanArgsLoop schema.properties [] args) k = none :=
    cleanArgsLoop_lookup_none _ [] args k hargs rfl
  constructor
  · unfold validateAndCleanArgs validateAndCleanArgsW
    exact requiredFillLoop_fills schema.properties toolName schema.required _ [] k ps hreq hk
      hclean
  · unfold validateAndCleanArgsW
    exact requiredFillLoop_warns schema.properties toolName schema.required _ [] k hreq hclean

/-- C6 amended witness: the required enum-bearing color parameter of the
concrete schema, with no arguments supplied. -/
theorem requiredFill_missing_defaults_witness :
    ("color" ∈ enumColorSchema.required) ∧
    lookupKey enumColorSchema.properties "color" =
      some { type := "string", enum := some ["red", "blue"] } ∧
    lookupKey ([] : List (String × JVal)) "color" = none ∧
    (lookupKey (validateAndCleanArgs enumColorSchema "paint" []) "color" =
      requiredFillValue { type := "string", enum := some ["red", "blue"] } ∧
     missingParamWarning "color" "paint" ∈ (validateAndCleanArgsW enumColorSchema "paint" []).2) :=
  ⟨by decide, rfl, rfl,
   requiredFill_missing_defaults enumColorSchema "paint" "color" []
     { type := "string", enum := some ["red", "blue"] } (by decide) rfl rfl⟩

/-- C9 counterexample: a successful result with two text items, one of
them empty, yields just the non-empty text (the filter drops falsy text
fields), not the two values joined by a newline. -/
theorem formatToolResult_empty_text_counterexample :
    processToolResult emptyTextResult = .ok "A" ∧ "A" ≠ "A" ++ "\n" ++ "" :=
  ⟨rfl, by decide⟩

/-- C9 amended: a successful result whose content is exactly two text
items with non-empty text yields the two texts joined by a newline, and
every error-flagged result makes the invocation fail with the
tool-execution-failed error instead of returning success text. -/
theorem formatToolResult_two_text_items (t1 t2 : String) (h1 : t1 ≠ "") (h2 : t2 ≠ "") :
    processToolResult
      { content := [{ type := "text", text := some t1 }, { type := "text", text := some t2 }],
        isError := some false } = .ok (t1 ++ "\n" ++ t2) ∧
    (∀ r : MCPToolResult, r.isError = some true →
      processToolResult r = .error ("Tool execution failed: " ++ stringifyContent r.content)) := by
  constructor
  · have hne : t1 ++ "\n" ++ t2 ≠ "" := by
      intro he
      have hl := congrArg String.length he
      rw [String.length_append, String.length_append] at hl
      rw [show ("\n" : String).length = 1 from rfl] at hl
      rw [show ("" : String).length = 0 from rfl] at hl
      omega
    simp [processToolResult, formatToolResult, jsStrOrDefault, joinSep, h1, h2, hne]
  · intro r hr
    simp [processToolResult, hr]

/-- C9 amended witness: the texts A and B, and a concrete error-flagged
result. -/
theorem formatToolResult_two_text_items_witness :
    ("A" ≠ "") ∧ ("B" ≠ "") ∧
    (processToolResult
      { content := [{ type := "text", text := some "A" }, { type := "text", text := some "B" }],
        isError := some false } = .ok ("A" ++ "\n" ++ "B") ∧
    (∀ r : MCPToolResult, r.isError = some true →
      processToolResult r = .error ("Tool execution failed: " ++ stringifyContent r.content))) :=
  ⟨by decide, by decide, formatToolResult_two_text_items "A" "B" (by decide) (by decide)⟩

/-- C10 helper: the history-update tail caps the stored list at 20. -/
theorem updateConversationHistory_length_le (h : List ChatMessage) (m r : String) :
    (updateConversationHistory h m r).length ≤ 20 := by
  show (if (h ++ [ChatMessage.human m, ChatMessage.ai r]).length > 20 then
      (h ++ [ChatMessage.human m, ChatMessage.ai r]).drop
        ((h ++ [ChatMessage.human m, ChatMessage.ai r]).length - 20)
    else h ++ [ChatMessage.human m, ChatMessage.ai r]).length ≤ 20
  by_cases hc : (h ++ [ChatMessage.human m, ChatMessage.ai r]).length > 20
  · rw [if_pos hc, List.length_drop]
    omega
  · rw [if_neg hc]
    omega

/-- C10 helper: when the appended pair overflows, exactly the most
recent 20 messages remain. -/
theorem updateConversationHistory_trim (h : List ChatMessage) (m r : String)
    (hgt : h.length + 2 > 20) :
    updateConversationHistory h m r =
      (h ++ [ChatMessage.human m, ChatMessage.ai r]).drop (h.length + 2 - 20) ∧
    (updateConversationHistory h m r).length = 20 := by
  have hlen : (h ++ [ChatMessage.human m, ChatMessage.ai r]).length = h.length + 2 := by
    simp
  have heq : updateConversationHistory h m r =
      (h ++ [ChatMessage.human m, ChatMessage.ai r]).drop (h.length + 2 - 20) := by
    show (if (h ++ [ChatMessage.human m, ChatMessage.ai r]).length > 20 then
        (h ++ [ChatMessage.human m, ChatMessage.ai r]).drop
          ((h ++ [ChatMessage.human m, ChatMessage.ai r]).length - 20)
      else h ++ [ChatMessage.human m, ChatMessage.ai r]) =
      (h ++ [ChatMessage.human m, ChatMessage.ai r]).drop (h.length + 2 - 20)
    rw [if_pos (show (h ++ [ChatMessage.human m, ChatMessage.ai r]).length > 20 by
      rw [hlen]; omega)]
    rw [hlen]
  refine ⟨heq, ?_⟩
  rw [heq, List.length_drop, hlen]
  omega

/-- C10: after the history-update tail of processMessage, the stored
history for the session is the updated list, it never exceeds 20
messages, and when appending the human/AI pair would exceed 20 exactly
the most recent 20 remain. -/
theorem processMessage_history_bounded (histories : List (String × List ChatMessage))
    (sessionId message response : String) :
    lookupKey (storeConversationHistory histories sessionId
        (updateConversationHistory ((lookupKey histories sessionId).getD []) message response))
      sessionId =
      some (updateConversationHistory ((lookupKey histories sessionId).getD [])
        message response) ∧
    (updateConversationHistory ((lookupKey histories sessionId).getD [])
      message response).length ≤ 20 ∧
    (((lookupKey histories sessionId).getD []).length + 2 > 20 →
      updateConversationHistory ((lookupKey histories sessionId).getD []) message response =
        (((lookupKey histories sessionId).getD []) ++
          [ChatMessage.human message, ChatMessage.ai response]).drop
          (((lookupKey histories sessionId).getD []).length + 2 - 20) ∧
      (updateConversationHistory ((lookupKey histories sessionId).getD [])
        message response).length = 20) := by
  refine ⟨lookupKey_setKey_self histories sessionId _, ?_, ?_⟩
  · exact updateConversationHistory_length_le _ message response
  · intro hgt
    exact updateConversationHistory_trim _ message response hgt

/-- C10 witness: a session with 20 stored messages receiving one more
exchange. -/
theorem processMessage_history_bounded_witness :
    lookupKey (storeConversationHistory
        [("s1", List.replicate 20 (ChatMessage.human "x"))] "s1"
        (updateConversationHistory
          ((lookupKey [("s1", List.replicate 20 (ChatMessage.human "x"))] "s1").getD [])
          "m" "r")) "s1" =
      some (updateConversationHistory
        ((lookupKey [("s1", List.replicate 20 (ChatMessage.human "x"))] "s1").getD [])
        "m" "r") ∧
    (updateConversationHistory
      ((lookupKey [("s1", List.replicate 20 (ChatMessage.human "x"))] "s1").getD [])
      "m" "r").length ≤ 20 ∧
    (((lookupKey [("s1", List.replicate 20 (ChatMessage.human "x"))] "s1").getD []).length + 2
        > 20 →
      updateConversationHistory
        ((lookupKey [("s1", List.replicate 20 (ChatMessage.human "x"))] "s1").getD [])
        "m" "r" =
        (((lookupKey [("s1", List.replicate 20 (ChatMessage.human "x"))] "s1").getD []) ++
          [ChatMessage.human "m", ChatMessage.ai "r"]).drop
          (((lookupKey [("s1", List.replicate 20 (ChatMessage.human "x"))] "s1").getD
            []).length + 2 - 20) ∧
      (updateConversationHistory
        ((lookupKey [("s1", List.replicate 20 (ChatMessage.human "x"))] "s1").getD [])
        "m" "r").length = 20) :=
  processMessage_history_bounded [("s1", List.replicate 20 (ChatMessage.human "x"))]
    "s1" "m" "r"
